import Mathlib

/-!
Verification of the opendott transfer-protocol tools.

Shallow embedding of the protocol logic found in the repository sources
`tools/dott_upload.py`, `tools/dott_upload_correct.py` and
`tools/dott_flash.py`.  Bytes are modelled as `List Nat` (each element a
value 0..255 where the source produces real bytes); Python functions that
can raise are modelled as `Option`-valued functions where `none` stands
for an uncaught exception; otherwise the definitions follow the source
line by line.
-/

set_option linter.unusedVariables false
set_option maxRecDepth 100000

namespace OpenDott

/-! ## Protocol constants (tools/dott_upload.py, lines 60-67) -/

def OPTIMAL_MTU : Nat := 498
def DEFAULT_MTU : Nat := 23
def CHUNK_DELAY_MS : Nat := 5
def MAX_RETRIES : Nat := 5
def BACKOFF_BASE_MS : Nat := 50
def BACKOFF_MAX_MS : Nat := 1000

/-! ## Chunker

Both streaming loops slice the payload as `payload[offset : offset + chunk_size]`
and advance `offset` by the slice length:
`tools/dott_upload.py` lines 314-338 (`while offset < len(transfer_data)`) and
`tools/dott_upload_correct.py` lines 221-238 (`for i in range(0, len(gif_data), chunk_size)`).
The recursion is driven by a fuel argument equal to the payload length, which
suffices for every chunk size of at least one; for chunk size 0 the Python
loop does not terminate, and the fuel-exhausted branch models that the loop
never yields a finite chunk sequence there. -/

def chunkStream : Nat → Nat → List Nat → List (List Nat)
  | 0, _, _ => []
  | _ + 1, _, [] => []
  | fuel + 1, s, b :: p =>
    (b :: p).take s :: chunkStream fuel s ((b :: p).drop s)

/-- The chunk sequence produced by the streaming loops for payload `p`
and chunk size `s`. -/
def chunkPayload (s : Nat) (p : List Nat) : List (List Nat) :=
  chunkStream p.length s p

theorem chunkStream_nil (fuel s : Nat) : chunkStream fuel s [] = [] := by
  cases fuel <;> simp [chunkStream]

theorem chunkStream_join (fuel s : Nat) (p : List Nat)
    (hs : 1 ≤ s) (hfuel : p.length ≤ fuel) :
    (chunkStream fuel s p).flatten = p := by
  induction fuel generalizing p with
  | zero =>
    have : p = [] := List.eq_nil_of_length_eq_zero (Nat.le_zero.mp hfuel)
    simp [this, chunkStream]
  | succ fuel ih =>
    match p with
    | [] => simp [chunkStream]
    | b :: p =>
      have hdrop : ((b :: p).drop s).length ≤ fuel := by
        simp only [List.length_drop, List.length_cons] at *
        omega
      rw [chunkStream, List.flatten_cons, ih ((b :: p).drop s) hdrop]
      exact List.take_append_drop s (b :: p)

theorem chunkStream_length_le (fuel s : Nat) (p : List Nat) :
    ∀ c ∈ chunkStream fuel s p, c.length ≤ s := by
  induction fuel generalizing p with
  | zero => simp [chunkStream]
  | succ fuel ih =>
    intro c hc
    match p with
    | [] => simp [chunkStream] at hc
    | b :: p =>
      rw [chunkStream] at hc
      rcases List.mem_cons.mp hc with hc | hc
      · subst hc
        simp
      · exact ih ((b :: p).drop s) c hc

theorem chunkStream_ne_nil (fuel s : Nat) (p : List Nat)
    (hp : p ≠ []) (hfuel : p.length ≤ fuel) :
    chunkStream fuel s p ≠ [] := by
  match fuel, p with
  | 0, p =>
    have : p = [] := List.eq_nil_of_length_eq_zero (Nat.le_zero.mp hfuel)
    exact absurd this hp
  | fuel + 1, [] => exact absurd rfl hp
  | fuel + 1, b :: p => simp [chunkStream]

theorem chunkStream_dropLast (fuel s : Nat) (p : List Nat)
    (hs : 1 ≤ s) (hfuel : p.length ≤ fuel) :
    ∀ c ∈ (chunkStream fuel s p).dropLast, c.length = s := by
  induction fuel generalizing p with
  | zero =>
    have : p = [] := List.eq_nil_of_length_eq_zero (Nat.le_zero.mp hfuel)
    simp [this, chunkStream]
  | succ fuel ih =>
    intro c hc
    match p with
    | [] => simp [chunkStream] at hc
    | b :: p =>
      rw [chunkStream] at hc
      by_cases hrest : (b :: p).drop s = []
      · simp [hrest, chunkStream_nil] at hc
      · have hlt : s < (b :: p).length := by
          have := List.length_pos.mpr hrest
          simp only [List.length_drop] at this
          omega
        have hdlen : ((b :: p).drop s).length ≤ fuel := by
          simp only [List.length_drop, List.length_cons] at *
          omega
        rw [List.dropLast_cons_of_ne_nil
          (chunkStream_ne_nil fuel s ((b :: p).drop s) hrest hdlen)] at hc
        rcases List.mem_cons.mp hc with hc | hc
        · subst hc
          simp only [List.length_take]
          omega
        · exact ih ((b :: p).drop s) hdlen c hc

/-- C1: for every payload and every chunk size of at least 1, the chunk
sequence produced by the streaming loop concatenates back to exactly the
payload (which also forces payload order with no gaps or overlaps), every
slice has length at most the chunk size, every slice except the last has
length exactly the chunk size, and the sequence is a deterministic
function of payload and chunk size. -/
theorem chunker_spec (p : List Nat) (s : Nat) (hs : 1 ≤ s) :
    (chunkPayload s p).flatten = p ∧
    (∀ c ∈ chunkPayload s p, c.length ≤ s) ∧
    (∀ c ∈ (chunkPayload s p).dropLast, c.length = s) ∧
    (∀ p₂ s₂, p₂ = p → s₂ = s → chunkPayload s₂ p₂ = chunkPayload s p) := by
  refine ⟨chunkStream_join p.length s p hs le_rfl,
    chunkStream_length_le p.length s p,
    chunkStream_dropLast p.length s p hs le_rfl, ?_⟩
  intro p₂ s₂ hp hs2
  rw [hp, hs2]

/-- Witness for `chunker_spec` at a concrete payload and chunk size. -/
theorem chunker_spec_witness :
    (chunkPayload 3 [1, 2, 3, 4, 5, 6, 7]).flatten = [1, 2, 3, 4, 5, 6, 7] ∧
    (∀ c ∈ chunkPayload 3 [1, 2, 3, 4, 5, 6, 7], c.length ≤ 3) ∧
    (∀ c ∈ (chunkPayload 3 [1, 2, 3, 4, 5, 6, 7]).dropLast, c.length = 3) ∧
    (∀ p₂ s₂, p₂ = [1, 2, 3, 4, 5, 6, 7] → s₂ = 3 →
      chunkPayload s₂ p₂ = chunkPayload 3 [1, 2, 3, 4, 5, 6, 7]) :=
  chunker_spec [1, 2, 3, 4, 5, 6, 7] 3 (by decide)

/-! ## Backoff policy

`DOTTClient._calculate_backoff` (tools/dott_upload.py, lines 202-205):
`delay = BACKOFF_BASE_MS * (2 ** (retry_count - 1)); return min(delay, BACKOFF_MAX_MS) / 1000.0`.
Modelled in milliseconds; the final division by 1000.0 only converts the
value to seconds for `asyncio.sleep`. -/

def calculate_backoff_ms (retry_count : Nat) : Nat :=
  min (BACKOFF_BASE_MS * 2 ^ (retry_count - 1)) BACKOFF_MAX_MS

/-- C5: for every attempt number of at least 1 the backoff delay equals
`min (50 * 2 ^ (n - 1)) 1000` milliseconds, is monotonically
non-decreasing in the attempt number, and never exceeds the 1000 ms
ceiling. -/
theorem backoff_spec (n : Nat) (hn : 1 ≤ n) :
    calculate_backoff_ms n = min (50 * 2 ^ (n - 1)) 1000 ∧
    calculate_backoff_ms n ≤ calculate_backoff_ms (n + 1) ∧
    calculate_backoff_ms n ≤ 1000 := by
  refine ⟨rfl, ?_, Nat.min_le_right _ _⟩
  unfold calculate_backoff_ms BACKOFF_BASE_MS BACKOFF_MAX_MS
  have hexp : 2 ^ (n - 1) ≤ 2 ^ (n + 1 - 1) :=
    Nat.pow_le_pow_right (by omega) (by omega)
  exact min_le_min (Nat.mul_le_mul_left 50 hexp) le_rfl

/-- Witness for `backoff_spec` at attempt number 4. -/
theorem backoff_spec_witness :
    calculate_backoff_ms 4 = min (50 * 2 ^ (4 - 1)) 1000 ∧
    calculate_backoff_ms 4 ≤ calculate_backoff_ms (4 + 1) ∧
    calculate_backoff_ms 4 ≤ 1000 :=
  backoff_spec 4 (by decide)

/-! ## MTU-derived chunk size

`chunk_size = self.mtu_size - 3; if chunk_size < 20: chunk_size = 20`
(tools/dott_upload.py lines 271-274 and tools/dott_upload_correct.py
lines 165-168).  Python integer subtraction can go negative for MTU < 3;
since any such value is below 20 the floor branch fires there exactly as
it does for truncated `Nat` subtraction, so `Nat` models it faithfully. -/

def chunkSizeFromMtu (mtu : Nat) : Nat :=
  if mtu - 3 < 20 then 20 else mtu - 3

/-- C8: the streaming chunk size equals MTU minus the fixed 3-byte ATT
overhead whenever that difference reaches the 20-byte floor, and is never
smaller than the 20-byte safety floor, even for pathologically small
MTU values below 23. -/
theorem chunk_size_spec (mtu : Nat) :
    20 ≤ chunkSizeFromMtu mtu ∧
    (23 ≤ mtu → chunkSizeFromMtu mtu = mtu - 3) ∧
    (mtu < 23 → chunkSizeFromMtu mtu = 20) := by
  unfold chunkSizeFromMtu
  refine ⟨?_, ?_, ?_⟩ <;> intros <;> split <;> omega

/-- Witness for `chunk_size_spec` at the negotiated MTU 247 and at a
pathologically small MTU of 10. -/
theorem chunk_size_spec_witness :
    chunkSizeFromMtu 247 = 247 - 3 ∧ chunkSizeFromMtu 10 = 20 :=
  ⟨(chunk_size_spec 247).2.1 (by decide), (chunk_size_spec 10).2.2 (by decide)⟩

/-! ## GIF payload validator

`validate_gif` (tools/dott_upload.py, lines 73-100).  The Python function
returns a pair `(is_valid, message)`; each distinct return site is modelled
by one constructor of `GifCheck` (the message string is pure formatting).
Python operations that can raise are modelled through `Option`: the only
such operation here is `struct.unpack('<H', ...)`, which raises unless its
argument is exactly 2 bytes, modelled by `unpackU16LE`.  The slices
`data[:6]`, `data[6:8]`, `data[8:10]` and `data[-1:]` are total in Python
and modelled by total `take`/`drop`. -/

def gif87a : List Nat := [71, 73, 70, 56, 55, 97]

def gif89a : List Nat := [71, 73, 70, 56, 57, 97]

/-- `struct.unpack('<H', bs)[0]`: little-endian 16-bit read, raising
(modelled as `none`) unless given exactly two bytes. -/
def unpackU16LE (bs : List Nat) : Option Nat :=
  match bs with
  | [lo, hi] => some (lo + 256 * hi)
  | _ => none

/-- One constructor per return site of `validate_gif`. -/
inductive GifCheck where
  | tooSmall (n : Nat)
  | badMagic (magic : List Nat)
  | zeroDimension (w h : Nat)
  | tooLarge (w h : Nat)
  | noTrailer
  | valid (w h : Nat)
deriving DecidableEq

def validate_gif (data : List Nat) : Option GifCheck :=
  if data.length < 13 then some (.tooSmall data.length)
  else
    let magic := data.take 6
    if magic ≠ gif87a ∧ magic ≠ gif89a then some (.badMagic magic)
    else
      match unpackU16LE ((data.drop 6).take 2), unpackU16LE ((data.drop 8).take 2) with
      | some width, some height =>
        if width = 0 ∨ height = 0 then some (.zeroDimension width height)
        else if 240 < width ∨ 240 < height then some (.tooLarge width height)
        else if data.drop (data.length - 1) ≠ [59] then some .noTrailer
        else some (.valid width height)
      | _, _ => none

theorem take_two_of_le (data : List Nat) (k : Nat) (h : k + 2 ≤ data.length) :
    ∃ lo hi, (data.drop k).take 2 = [lo, hi] := by
  have hlen : ((data.drop k).take 2).length = 2 := by
    simp only [List.length_take, List.length_drop]
    omega
  rcases List.length_eq_two.mp hlen with ⟨lo, hi, heq⟩
  exact ⟨lo, hi, heq⟩

/-- C10: `validate_gif` is total.  For every byte string, including the
empty one, it returns a structured result and never raises: the
minimum-size check runs before the magic-byte, dimension-field and
trailer-byte accesses, so every `struct.unpack` receives exactly two
bytes. -/
theorem validate_gif_total (data : List Nat) : (validate_gif data).isSome = true := by
  unfold validate_gif
  by_cases hlen : data.length < 13
  · simp [hlen]
  · rcases take_two_of_le data 6 (by omega) with ⟨lo₆, hi₆, h₆⟩
    rcases take_two_of_le data 8 (by omega) with ⟨lo₈, hi₈, h₈⟩
    simp only [hlen, if_false, h₆, h₈, unpackU16LE]
    split
    · rfl
    · split <;> [rfl; skip]
      split <;> [rfl; skip]
      split <;> rfl

/-- Witness for `validate_gif_total` at a concrete short input. -/
theorem validate_gif_total_witness :
    (validate_gif [1, 2, 3]).isSome = true :=
  validate_gif_total [1, 2, 3]

/-- C7 (amended): every payload of at least 13 bytes whose first 6 bytes
differ from both accepted magic signatures validates as BadMagic,
regardless of its remaining content; and every payload of exactly
12 bytes validates as TooSmall.  (For payloads shorter than 13 bytes the
size check fires first, so a wrong-magic payload of such a length is
TooSmall, not BadMagic.) -/
theorem validate_gif_magic_spec (data : List Nat) :
    (13 ≤ data.length → data.take 6 ≠ gif87a → data.take 6 ≠ gif89a →
      validate_gif data = some (.badMagic (data.take 6))) ∧
    (data.length = 12 → validate_gif data = some (.tooSmall 12)) := by
  constructor
  · intro hlen h87 h89
    unfold validate_gif
    have : ¬ data.length < 13 := by omega
    simp [this, h87, h89]
  · intro hlen
    unfold validate_gif
    rw [hlen]
    simp

/-- Witness for `validate_gif_magic_spec`: a 13-byte all-zero payload is
BadMagic, and a 12-byte all-zero payload is TooSmall. -/
theorem validate_gif_magic_spec_witness :
    validate_gif (List.replicate 13 0) =
      some (.badMagic ((List.replicate 13 0).take 6)) ∧
    validate_gif (List.replicate 12 0) = some (.tooSmall 12) :=
  ⟨(validate_gif_magic_spec (List.replicate 13 0)).1 (by decide) (by decide) (by decide),
   (validate_gif_magic_spec (List.replicate 12 0)).2 (by decide)⟩

/-- Counterexample to C7 as stated: the 12-byte all-zero payload begins
with 6 bytes that differ from both accepted magic signatures, yet the
validator reports TooSmall, not BadMagic. -/
theorem validate_gif_magic_cex :
    (List.replicate 12 0).take 6 ≠ gif87a ∧
    (List.replicate 12 0).take 6 ≠ gif89a ∧
    validate_gif (List.replicate 12 0) = some (.tooSmall 12) ∧
    ∀ m, validate_gif (List.replicate 12 0) ≠ some (.badMagic m) := by
  refine ⟨by decide, by decide, by decide, ?_⟩
  intro m h
  rw [show validate_gif (List.replicate 12 0) = some (.tooSmall 12) from by decide] at h
  simp at h

/-! ## CBOR payload codec

`build_smp_packet` serializes its field map with `cbor2.dumps` and
`parse_smp_response` deserializes with `cbor2.loads`
(tools/dott_flash.py, lines 52-75).  The model covers the CBOR subset the
SMP commands in the source exchange — definite-length maps whose keys and
values are scalars (unsigned integers with minimal-width heads, byte
strings, text strings, booleans), plus bare scalars — exactly the shape
of every request built in `upload_firmware`, `confirm_image` and of the
`rc`/`off` responses.  Text strings are modelled by their UTF-8 bytes.
`cborLoads` decodes one item from the front of the buffer, ignoring
trailing bytes, and returns `none` where `cbor2.loads` raises. -/

inductive CborScalar where
  | uint (n : Nat)
  | bytes (bs : List Nat)
  | text (bs : List Nat)
  | boolean (b : Bool)
deriving DecidableEq

inductive CborItem where
  | scalar (s : CborScalar)
  | map (kvs : List (CborScalar × CborScalar))
deriving DecidableEq

/-- Big-endian byte serialization of `n` in exactly `k` bytes. -/
def encBE : Nat → Nat → List Nat
  | 0, _ => []
  | k + 1, n => (n / 256 ^ k) % 256 :: encBE k (n % 256 ^ k)

/-- Big-endian read of exactly `k` bytes. -/
def readBE : Nat → List Nat → Option (Nat × List Nat)
  | 0, bs => some (0, bs)
  | _ + 1, [] => none
  | k + 1, b :: bs =>
    match readBE k bs with
    | none => none
    | some (n, r) => some (b * 256 ^ k + n, r)

/-- CBOR head for major type `major` and argument `n`, with the
minimal-width argument encoding `cbor2` emits. -/
def encodeHead (major n : Nat) : List Nat :=
  if n < 24 then [32 * major + n]
  else if n < 256 then (32 * major + 24) :: encBE 1 n
  else if n < 65536 then (32 * major + 25) :: encBE 2 n
  else if n < 4294967296 then (32 * major + 26) :: encBE 4 n
  else (32 * major + 27) :: encBE 8 n

/-- Decode a CBOR head: major type, argument, rest.  Additional-info
values 28-31 (reserved / indefinite length) are rejected, as `cbor2`
rejects them in the definite-length subset the tools exchange. -/
def decodeHead : List Nat → Option (Nat × Nat × List Nat)
  | [] => none
  | ib :: rest =>
    let major := ib / 32
    let ai := ib % 32
    if ai < 24 then some (major, ai, rest)
    else if ai = 24 then
      match readBE 1 rest with
      | none => none
      | some (n, r) => some (major, n, r)
    else if ai = 25 then
      match readBE 2 rest with
      | none => none
      | some (n, r) => some (major, n, r)
    else if ai = 26 then
      match readBE 4 rest with
      | none => none
      | some (n, r) => some (major, n, r)
    else if ai = 27 then
      match readBE 8 rest with
      | none => none
      | some (n, r) => some (major, n, r)
    else none

def encScalar : CborScalar → List Nat
  | .uint n => encodeHead 0 n
  | .bytes bs => encodeHead 2 bs.length ++ bs
  | .text bs => encodeHead 3 bs.length ++ bs
  | .boolean b => encodeHead 7 (if b then 21 else 20)

def encPairs : List (CborScalar × CborScalar) → List Nat
  | [] => []
  | (k, v) :: rest => encScalar k ++ encScalar v ++ encPairs rest

/-- `cbor2.dumps` on the protocol subset. -/
def cborDumps : CborItem → List Nat
  | .scalar s => encScalar s
  | .map kvs => encodeHead 5 kvs.length ++ encPairs kvs

def decScalar (bs : List Nat) : Option (CborScalar × List Nat) :=
  match decodeHead bs with
  | none => none
  | some (major, n, rest) =>
    if major = 0 then some (.uint n, rest)
    else if major = 2 then
      if rest.length < n then none else some (.bytes (rest.take n), rest.drop n)
    else if major = 3 then
      if rest.length < n then none else some (.text (rest.take n), rest.drop n)
    else if major = 7 then
      if n = 20 then some (.boolean false, rest)
      else if n = 21 then some (.boolean true, rest)
      else none
    else none

def decPairs : Nat → List Nat → Option (List (CborScalar × CborScalar) × List Nat)
  | 0, bs => some ([], bs)
  | n + 1, bs =>
    match decScalar bs with
    | none => none
    | some (k, r₁) =>
      match decScalar r₁ with
      | none => none
      | some (v, r₂) =>
        match decPairs n r₂ with
        | none => none
        | some (kvs, r₃) => some ((k, v) :: kvs, r₃)

/-- `cbor2.loads` on the protocol subset: decode a single item from the
front of the buffer (trailing bytes are ignored); `none` models a raised
decode error. -/
def cborLoads (bs : List Nat) : Option CborItem :=
  match decodeHead bs with
  | none => none
  | some (major, n, rest) =>
    if major = 5 then (decPairs n rest).map fun p => CborItem.map p.1
    else (decScalar bs).map fun p => CborItem.scalar p.1

/-- Well-formedness of a scalar for the encoder: arguments fit the
largest (8-byte) head and byte-string content is made of bytes. -/
def scalarWF : CborScalar → Bool
  | .uint n => decide (n < 2 ^ 64)
  | .bytes bs => decide (bs.length < 2 ^ 64) && bs.all (· < 256)
  | .text bs => decide (bs.length < 2 ^ 64) && bs.all (· < 256)
  | .boolean _ => true

def pairsWF (kvs : List (CborScalar × CborScalar)) : Bool :=
  kvs.all fun p => scalarWF p.1 && scalarWF p.2

def itemWF : CborItem → Bool
  | .scalar s => scalarWF s
  | .map kvs => decide (kvs.length < 2 ^ 64) && pairsWF kvs

theorem readBE_encBE (k n : Nat) (rest : List Nat) (h : n < 256 ^ k) :
    readBE k (encBE k n ++ rest) = some (n, rest) := by
  induction k generalizing n with
  | zero =>
    have hpow : (256 : Nat) ^ 0 = 1 := by norm_num
    have : n = 0 := by omega
    simp [this, encBE, readBE]
  | succ k ih =>
    have hpos : 0 < 256 ^ k := Nat.pos_pow_of_pos k (by omega)
    have hmod : n % 256 ^ k < 256 ^ k := Nat.mod_lt _ hpos
    have hdiv : n / 256 ^ k < 256 := by
      rw [pow_succ] at h
      exact Nat.div_lt_of_lt_mul h
    have hdm := Nat.div_add_mod n (256 ^ k)
    have hrec : n / 256 ^ k % 256 * 256 ^ k + n % 256 ^ k = n := by
      rw [Nat.mod_eq_of_lt hdiv, Nat.mul_comm]
      exact hdm
    rw [encBE, List.cons_append, readBE, ih (n % 256 ^ k) hmod]
    dsimp only
    rw [hrec]

theorem decodeHead_encodeHead (major n : Nat) (rest : List Nat)
    (hm : major ≤ 7) (hn : n < 2 ^ 64) :
    decodeHead (encodeHead major n ++ rest) = some (major, n, rest) := by
  have h256 : (256 : Nat) ^ 1 = 256 := by norm_num
  have h65536 : (256 : Nat) ^ 2 = 65536 := by norm_num
  have h2_32 : (256 : Nat) ^ 4 = 4294967296 := by norm_num
  have h2_64 : (256 : Nat) ^ 8 = 2 ^ 64 := by norm_num
  unfold encodeHead
  by_cases h24 : n < 24
  · have hdiv : (32 * major + n) / 32 = major := by omega
    have hmod : (32 * major + n) % 32 = n := by omega
    simp [h24, decodeHead, hdiv, hmod]
  · by_cases hb1 : n < 256
    · have hdiv : (32 * major + 24) / 32 = major := by omega
      have hmod : (32 * major + 24) % 32 = 24 := by omega
      simp [h24, hb1, decodeHead, hdiv, hmod, readBE_encBE 1 n rest (by omega)]
    · by_cases hb2 : n < 65536
      · have hdiv : (32 * major + 25) / 32 = major := by omega
        have hmod : (32 * major + 25) % 32 = 25 := by omega
        simp [h24, hb1, hb2, decodeHead, hdiv, hmod,
          readBE_encBE 2 n rest (by omega)]
      · by_cases hb4 : n < 4294967296
        · have hdiv : (32 * major + 26) / 32 = major := by omega
          have hmod : (32 * major + 26) % 32 = 26 := by omega
          simp [h24, hb1, hb2, hb4, decodeHead, hdiv, hmod,
            readBE_encBE 4 n rest (by omega)]
        · have hdiv : (32 * major + 27) / 32 = major := by omega
          have hmod : (32 * major + 27) % 32 = 27 := by omega
          simp [h24, hb1, hb2, hb4, decodeHead, hdiv, hmod,
            readBE_encBE 8 n rest (by omega)]

theorem decScalar_encScalar (s : CborScalar) (rest : List Nat)
    (hwf : scalarWF s = true) :
    decScalar (encScalar s ++ rest) = some (s, rest) := by
  match s with
  | .uint n =>
    simp only [scalarWF, decide_eq_true_eq] at hwf
    simp [encScalar, decScalar, decodeHead_encodeHead 0 n rest (by omega) hwf]
  | .bytes bs =>
    simp only [scalarWF, Bool.and_eq_true, decide_eq_true_eq] at hwf
    rw [encScalar, List.append_assoc, decScalar,
      decodeHead_encodeHead 2 bs.length (bs ++ rest) (by omega) hwf.1]
    have hlen : ¬ (bs ++ rest).length < bs.length := by
      simp only [List.length_append]
      omega
    simp [hlen, List.take_left, List.drop_left]
  | .text bs =>
    simp only [scalarWF, Bool.and_eq_true, decide_eq_true_eq] at hwf
    rw [encScalar, List.append_assoc, decScalar,
      decodeHead_encodeHead 3 bs.length (bs ++ rest) (by omega) hwf.1]
    have hlen : ¬ (bs ++ rest).length < bs.length := by
      simp only [List.length_append]
      omega
    simp [hlen, List.take_left, List.drop_left]
  | .boolean b =>
    cases b
    · simp [encScalar, decScalar,
        decodeHead_encodeHead 7 20 rest (by omega) (by norm_num)]
    · simp [encScalar, decScalar,
        decodeHead_encodeHead 7 21 rest (by omega) (by norm_num)]

theorem decPairs_encPairs (kvs : List (CborScalar × CborScalar)) (rest : List Nat)
    (hwf : pairsWF kvs = true) :
    decPairs kvs.length (encPairs kvs ++ rest) = some (kvs, rest) := by
  induction kvs with
  | nil => simp [encPairs, decPairs]
  | cons kv tl ih =>
    obtain ⟨k, v⟩ := kv
    simp only [pairsWF, List.all_cons, Bool.and_eq_true] at hwf
    obtain ⟨⟨hk, hv⟩, htl⟩ := hwf
    have htl' : pairsWF tl = true := htl
    rw [encPairs, List.length_cons, decPairs, List.append_assoc, List.append_assoc,
      decScalar_encScalar k _ hk]
    dsimp only
    rw [decScalar_encScalar v _ hv]
    dsimp only
    rw [ih htl']

theorem encodeHead_ne_nil (major n : Nat) : encodeHead major n ≠ [] := by
  unfold encodeHead
  split
  · simp
  · split
    · simp
    · split
      · simp
      · split <;> simp

theorem cborDumps_ne_nil (v : CborItem) : cborDumps v ≠ [] := by
  match v with
  | .scalar (.uint n) => exact encodeHead_ne_nil 0 n
  | .scalar (.boolean b) => exact encodeHead_ne_nil 7 _
  | .scalar (.bytes bs) =>
    intro h
    exact encodeHead_ne_nil 2 bs.length (List.append_eq_nil.mp h).1
  | .scalar (.text bs) =>
    intro h
    exact encodeHead_ne_nil 3 bs.length (List.append_eq_nil.mp h).1
  | .map kvs =>
    intro h
    exact encodeHead_ne_nil 5 kvs.length (List.append_eq_nil.mp h).1

/-- Round trip of the payload codec on the protocol subset. -/
theorem cborLoads_cborDumps (v : CborItem) (hwf : itemWF v = true) :
    cborLoads (cborDumps v) = some v := by
  match v with
  | .scalar s =>
    have hmajor : ∃ m n tl, decodeHead (encScalar s) = some (m, n, tl) ∧ m ≠ 5 := by
      match s with
      | .uint n =>
        simp only [itemWF, scalarWF, decide_eq_true_eq] at hwf
        refine ⟨0, n, [], ?_, by omega⟩
        have := decodeHead_encodeHead 0 n [] (by omega) hwf
        simpa [encScalar] using this
      | .bytes bs =>
        simp only [itemWF, scalarWF, Bool.and_eq_true, decide_eq_true_eq] at hwf
        refine ⟨2, bs.length, bs, ?_, by omega⟩
        simpa [encScalar] using decodeHead_encodeHead 2 bs.length bs (by omega) hwf.1
      | .text bs =>
        simp only [itemWF, scalarWF, Bool.and_eq_true, decide_eq_true_eq] at hwf
        refine ⟨3, bs.length, bs, ?_, by omega⟩
        simpa [encScalar] using decodeHead_encodeHead 3 bs.length bs (by omega) hwf.1
      | .boolean b =>
        cases b
        · refine ⟨7, 20, [], ?_, by omega⟩
          simpa [encScalar] using decodeHead_encodeHead 7 20 [] (by omega) (by norm_num)
        · refine ⟨7, 21, [], ?_, by omega⟩
          simpa [encScalar] using decodeHead_encodeHead 7 21 [] (by omega) (by norm_num)
    obtain ⟨m, n, tl, hdec, hm5⟩ := hmajor
    have hs : decScalar (encScalar s ++ []) = some (s, []) :=
      decScalar_encScalar s [] hwf
    rw [List.append_nil] at hs
    rw [cborDumps, cborLoads, hdec]
    simp [hm5, hs]
  | .map kvs =>
    simp only [itemWF, Bool.and_eq_true, decide_eq_true_eq] at hwf
    rw [cborDumps, cborLoads,
      decodeHead_encodeHead 5 kvs.length (encPairs kvs) (by omega) hwf.1]
    have := decPairs_encPairs kvs [] hwf.2
    rw [List.append_nil] at this
    simp [this]

theorem encBE_two (m : Nat) : encBE 2 m = [m / 256 % 256, m % 256] := by
  have h2 : m % 256 % 256 = m % 256 := Nat.mod_mod_of_dvd m dvd_rfl
  simp only [encBE, pow_one, pow_zero, Nat.div_one, h2]

/-! ## SMP packet codec

`build_smp_packet` (tools/dott_flash.py, lines 52-59) and
`parse_smp_response` (lines 62-75).  `struct.pack('>BBHHBB', ...)` raises
unless each argument fits its field width; `pack_BBHHBB` models that with
`Option`.  `parse_smp_response` returns `(None, None)` for inputs shorter
than 8 bytes, modelled as `none`; its payload slice `data[8:8+length]`
silently truncates when fewer than `length` bytes remain. -/

structure SMPHeader where
  op : Nat
  group : Nat
  cmd : Nat
  seq : Nat
deriving DecidableEq

/-- The `result` value of `parse_smp_response`: the decoded CBOR value,
or the raw payload bytes when `cbor2.loads` raises. -/
inductive SMPPayload where
  | decoded (v : CborItem)
  | raw (bs : List Nat)
deriving DecidableEq

/-- `struct.pack('>BBHHBB', op, flags, length, group, seq, cmd)`. -/
def pack_BBHHBB (op flags length group seq cmd : Nat) : Option (List Nat) :=
  if op < 256 ∧ flags < 256 ∧ length < 65536 ∧ group < 65536 ∧ seq < 256 ∧ cmd < 256 then
    some ([op, flags] ++ encBE 2 length ++ encBE 2 group ++ [seq, cmd])
  else none

def build_smp_packet (op group cmd_id : Nat) (data : CborItem) (seq : Nat) :
    Option (List Nat) :=
  let payload := cborDumps data
  (pack_BBHHBB op 0 payload.length group seq cmd_id).map (· ++ payload)

def parse_smp_response (data : List Nat) : Option (SMPHeader × SMPPayload) :=
  match data with
  | b0 :: b1 :: b2 :: b3 :: b4 :: b5 :: b6 :: b7 :: rest =>
    let length := 256 * b2 + b3
    let payload := rest.take length
    let result : SMPPayload :=
      if payload = [] then .decoded (.map [])
      else
        match cborLoads payload with
        | some v => .decoded v
        | none => .raw payload
    some ({ op := b0, group := 256 * b4 + b5, cmd := b7, seq := b6 }, result)
  | _ => none

/-- C2: for every one-byte op, two-byte group, one-byte command, one-byte
sequence number, and well-formed field map whose serialization fits the
16-bit length field, decoding the bytes produced by encoding yields a
header whose op, group, seq and cmd equal the inputs, and a payload map
equal to the input fields. -/
theorem smp_roundtrip (op group cmd seq : Nat) (kvs : List (CborScalar × CborScalar))
    (hop : op < 256) (hgroup : group < 65536) (hcmd : cmd < 256) (hseq : seq < 256)
    (hwf : itemWF (.map kvs) = true)
    (hlen : (cborDumps (.map kvs)).length < 65536) :
    ∃ pkt, build_smp_packet op group cmd (.map kvs) seq = some pkt ∧
      parse_smp_response pkt =
        some ({ op := op, group := group, cmd := cmd, seq := seq },
          .decoded (.map kvs)) := by
  set payload := cborDumps (.map kvs) with hpayload
  refine ⟨[op, 0] ++ encBE 2 payload.length ++ encBE 2 group ++ [seq, cmd] ++ payload,
    ?_, ?_⟩
  · have hcond : op < 256 ∧ 0 < 256 ∧ payload.length < 65536 ∧ group < 65536 ∧
        seq < 256 ∧ cmd < 256 := ⟨hop, by omega, hlen, hgroup, hseq, hcmd⟩
    unfold build_smp_packet pack_BBHHBB
    rw [← hpayload]
    dsimp only
    rw [if_pos hcond]
    simp [List.append_assoc]
  · rw [encBE_two, encBE_two]
    have hne : payload ≠ [] := cborDumps_ne_nil _
    have hload : cborLoads payload = some (.map kvs) := by
      rw [hpayload]
      exact cborLoads_cborDumps _ hwf
    have hlenrec : 256 * (payload.length / 256 % 256) + payload.length % 256 =
        payload.length := by omega
    have hgrouprec : 256 * (group / 256 % 256) + group % 256 = group := by omega
    simp only [List.cons_append, List.nil_append, parse_smp_response, hlenrec,
      hgrouprec, List.take_length, if_neg hne, hload]

/-- Witness for `smp_roundtrip` on a concrete image-upload request
(`op` 2, `group` 1, `cmd` 1, `seq` 3, fields `off` ↦ 128). -/
theorem smp_roundtrip_witness :
    ∃ pkt, build_smp_packet 2 1 1
        (.map [(.text [111, 102, 102], .uint 128)]) 3 = some pkt ∧
      parse_smp_response pkt =
        some ({ op := 2, group := 1, cmd := 1, seq := 3 },
          .decoded (.map [(.text [111, 102, 102], .uint 128)])) :=
  smp_roundtrip 2 1 1 3 [(.text [111, 102, 102], .uint 128)]
    (by decide) (by decide) (by decide) (by decide) (by decide) (by decide)

/-- C4 (amended): `parse_smp_response` fails (returns the Python
`(None, None)`) exactly when fewer than 8 bytes are available.  When the
declared payload length exceeds the bytes remaining after the header, the
payload slice silently truncates to the available bytes and the parse
succeeds. -/
theorem parse_fail_iff_short (data : List Nat) :
    parse_smp_response data = none ↔ data.length < 8 := by
  match data with
  | [] => simp [parse_smp_response]
  | [_] => simp [parse_smp_response]
  | [_, _] => simp [parse_smp_response]
  | [_, _, _] => simp [parse_smp_response]
  | [_, _, _, _] => simp [parse_smp_response]
  | [_, _, _, _, _] => simp [parse_smp_response]
  | [_, _, _, _, _, _] => simp [parse_smp_response]
  | [_, _, _, _, _, _, _] => simp [parse_smp_response]
  | _ :: _ :: _ :: _ :: _ :: _ :: _ :: _ :: rest =>
    simp [parse_smp_response]

/-- Counterexample to C4 as stated: this 8-byte input declares a payload
length of 5 with 0 bytes remaining after the header, yet the parse
succeeds instead of failing. -/
theorem parse_fail_cex :
    ¬ ([2, 0, 0, 5, 0, 1, 0, 1] : List Nat).length < 8 ∧
    256 * 0 + 5 > ([2, 0, 0, 5, 0, 1, 0, 1] : List Nat).length - 8 ∧
    parse_smp_response [2, 0, 0, 5, 0, 1, 0, 1] =
      some ({ op := 2, group := 1, cmd := 1, seq := 0 }, .decoded (.map [])) := by
  refine ⟨by decide, by decide, ?_⟩
  rfl

/-- Witness for `parse_fail_iff_short` at a concrete 3-byte input. -/
theorem parse_fail_iff_short_witness :
    parse_smp_response [1, 2, 3] = none ↔ ([1, 2, 3] : List Nat).length < 8 :=
  parse_fail_iff_short [1, 2, 3]

/-- C9: on every input whose 8-byte header parses but whose non-empty
payload bytes are not decodable CBOR, the parse returns the raw payload
bytes themselves as the payload result instead of raising. -/
theorem parse_raw_fallback (b0 b1 b2 b3 b4 b5 b6 b7 : Nat) (rest : List Nat)
    (hne : rest.take (256 * b2 + b3) ≠ [])
    (hbad : cborLoads (rest.take (256 * b2 + b3)) = none) :
    parse_smp_response (b0 :: b1 :: b2 :: b3 :: b4 :: b5 :: b6 :: b7 :: rest) =
      some ({ op := b0, group := 256 * b4 + b5, cmd := b7, seq := b6 },
        .raw (rest.take (256 * b2 + b3))) := by
  simp [parse_smp_response, hne, hbad]

/-- Witness for `parse_raw_fallback`: a packet whose 1-byte payload `0xff`
is not valid CBOR comes back as raw bytes. -/
theorem parse_raw_fallback_witness :
    parse_smp_response [1, 0, 0, 1, 0, 0, 0, 0, 255] =
      some ({ op := 1, group := 0, cmd := 0, seq := 0 },
        .raw (([255] : List Nat).take (256 * 0 + 1))) := by
  have := parse_raw_fallback 1 0 0 1 0 0 0 0 [255] (by decide) (by decide)
  simpa using this

/-! ## Framed-mode firmware upload loop

`DOTTFlasher.upload_firmware` (tools/dott_flash.py, lines 143-188).  The
loop slices 128-byte chunks, sends each as an SMP request carrying
`image`, `off`, `data` (plus `len` and `sha` on the first chunk), checks
the response `rc`, and then continues from
`result.get('off', offset + len(chunk))` — the device-reported offset
when present, the local expectation otherwise.  The SHA-256 digest is an
opaque input to the loop, passed through as a parameter.  Responses are
modelled as the already-parsed result map (`rc`/`off` fields); `none`
models `smp_command` timing out.  The loop is driven by fuel because a
regressing device-reported offset can make the Python loop run
arbitrarily long. -/

def fwChunkSize : Nat := 128

/-- The fields of one image-upload request (`req` dict, lines 154-163). -/
structure FwRequest where
  image : Nat
  off : Nat
  data : List Nat
  totalLen : Option Nat
  sha : Option (List Nat)
deriving DecidableEq

/-- The parsed response map fields the loop reads (lines 176-183). -/
structure FwResponse where
  rc : Option Int
  off : Option Nat
deriving DecidableEq

inductive FwOutcome where
  | success
  | noResponse (off : Nat)
  | rejected (rc : Int) (off : Nat)
  | fuelOut
deriving DecidableEq

/-- The request dict built at a given offset (lines 154-163). -/
def mkFwRequest (fw sha : List Nat) (offset : Nat) : FwRequest :=
  { image := 0
    off := offset
    data := (fw.drop offset).take fwChunkSize
    totalLen := if offset = 0 then some fw.length else none
    sha := if offset = 0 then some sha else none }

/-- The offset the loop continues from after an accepted chunk
(line 183): `result.get('off', offset + len(chunk))`. -/
def nextUploadOffset (offset chunkLen : Nat) (r : FwResponse) : Nat :=
  r.off.getD (offset + chunkLen)

/-- The upload loop (lines 150-186): returns the trace of requests sent
and the terminal outcome, consuming one response per request. -/
def uploadRun (fw sha : List Nat) :
    Nat → Nat → List (Option FwResponse) → List FwRequest × FwOutcome
  | 0, _, _ => ([], .fuelOut)
  | fuel + 1, offset, resps =>
    if offset < fw.length then
      let req := mkFwRequest fw sha offset
      match resps with
      | [] => ([req], .noResponse offset)
      | none :: _ => ([req], .noResponse offset)
      | some r :: rtl =>
        let rc := r.rc.getD (-1)
        if rc ≠ 0 then ([req], .rejected rc offset)
        else
          let next := uploadRun fw sha fuel (nextUploadOffset offset req.data.length r) rtl
          (req :: next.1, next.2)
    else ([], .success)

/-- An accepted response reporting offset `o`. -/
def okAt (o : Nat) : Option FwResponse :=
  some { rc := some 0, off := some o }

/-- The concrete regression scenario: a 384-byte firmware image (3 chunks
of 128), where the response to the 3rd chunk reports the offset of
chunk 2. -/
def scenFw : List Nat := List.range 384

def scenResps : List (Option FwResponse) :=
  [okAt 128, okAt 256, okAt 128, okAt 256, okAt 384]

/-- C3: in Framed mode the engine sets its upload offset to the offset
reported in an accepted response, not to its locally computed
`offset + len(chunk)` (first conjunct: the loop continues from the
reported offset `o`); concretely, when the response to the 3rd chunk
reports the offset of chunk 2 (128), the 4th request restarts at that
reported offset and the following request retransmits chunk 3's data
range (bytes 256..384). -/
theorem framed_offset_spec :
    (∀ (fw sha : List Nat) (fuel offset : Nat) (r : FwResponse)
      (rtl : List (Option FwResponse)) (o : Nat),
      offset < fw.length → r.rc = some 0 → r.off = some o →
      uploadRun fw sha (fuel + 1) offset (some r :: rtl) =
        ((mkFwRequest fw sha offset) :: (uploadRun fw sha fuel o rtl).1,
          (uploadRun fw sha fuel o rtl).2)) ∧
    ((uploadRun scenFw [1, 2, 3] 6 0 scenResps).2 = .success ∧
      (uploadRun scenFw [1, 2, 3] 6 0 scenResps).1.map (·.off) =
        [0, 128, 256, 128, 256] ∧
      (uploadRun scenFw [1, 2, 3] 6 0 scenResps).1.map (·.data) =
        [0, 128, 256, 128, 256].map
          (fun o => (scenFw.drop o).take fwChunkSize)) := by
  constructor
  · intro fw sha fuel offset r rtl o hoff hrc hro
    rw [uploadRun, if_pos hoff]
    dsimp only
    rw [hrc]
    dsimp only [Option.getD]
    rw [if_neg (by omega)]
    have : nextUploadOffset offset (mkFwRequest fw sha offset).data.length r = o := by
      rw [nextUploadOffset, hro]
      rfl
    rw [this]
  · refine ⟨?_, ?_, ?_⟩ <;> rfl

/-- Witness for `framed_offset_spec`: its universally quantified conjunct
applied at a concrete accepted response reporting offset 128. -/
theorem framed_offset_spec_witness :
    uploadRun scenFw [1, 2, 3] 6 0
        (some { rc := some 0, off := some 128 } :: scenResps.drop 1) =
      ((mkFwRequest scenFw [1, 2, 3] 0) ::
        (uploadRun scenFw [1, 2, 3] 5 128 (scenResps.drop 1)).1,
        (uploadRun scenFw [1, 2, 3] 5 128 (scenResps.drop 1)).2) :=
  framed_offset_spec.1 scenFw [1, 2, 3] 5 0
    { rc := some 0, off := some 128 } (scenResps.drop 1) 128
    (by decide) rfl rfl

/-! ## Notification classifier

`DOTTUploader._notification_handler` (tools/dott_upload_correct.py,
lines 105-115) and the terminal scan in `DOTTUploader.upload`
(lines 253-254).  Per message the code computes
`text = data.decode('utf-8', errors='ignore').strip('\x00')`, treats the
exact bytes `ff ff ff ff` as the ready indication, and at the end checks
`'complete' in text.lower()` before `'fail' in text.lower()`.
`utf8DecodeIgnore` models CPython's `errors='ignore'` handler: a valid
UTF-8 scalar (no overlongs, no surrogates, at most U+10FFFF) is emitted,
any other byte is skipped; since no valid scalar can begin at a
continuation byte, skipping one byte at a time yields the same character
sequence as CPython's skip-the-invalid-sequence behaviour.  Lower-casing
is modelled on the ASCII range, which covers both search patterns. -/

def isUtf8Cont (b : Nat) : Bool := 128 ≤ b && b ≤ 191

/-- Try to read one UTF-8 scalar whose lead byte is `b1` and whose
continuation bytes come from `rest`: returns the code point and the
number of bytes consumed from `rest`. -/
def utf8Step (b1 : Nat) (rest : List Nat) : Option (Nat × Nat) :=
  if b1 ≤ 127 then some (b1, 0)
  else if 194 ≤ b1 && b1 ≤ 223 then
    match rest with
    | b2 :: _ =>
      if isUtf8Cont b2 then some ((b1 - 192) * 64 + (b2 - 128), 1) else none
    | _ => none
  else if 224 ≤ b1 && b1 ≤ 239 then
    match rest with
    | b2 :: b3 :: _ =>
      let lowOk :=
        if b1 = 224 then 160 ≤ b2 && b2 ≤ 191
        else if b1 = 237 then 128 ≤ b2 && b2 ≤ 159
        else isUtf8Cont b2
      if lowOk && isUtf8Cont b3 then
        some ((b1 - 224) * 4096 + (b2 - 128) * 64 + (b3 - 128), 2)
      else none
    | _ => none
  else if 240 ≤ b1 && b1 ≤ 244 then
    match rest with
    | b2 :: b3 :: b4 :: _ =>
      let lowOk :=
        if b1 = 240 then 144 ≤ b2 && b2 ≤ 191
        else if b1 = 244 then 128 ≤ b2 && b2 ≤ 143
        else isUtf8Cont b2
      if lowOk && isUtf8Cont b3 && isUtf8Cont b4 then
        some ((b1 - 240) * 262144 + (b2 - 128) * 4096 + (b3 - 128) * 64 + (b4 - 128), 3)
      else none
    | _ => none
  else none

def utf8DecodeIgnoreAux : Nat → List Nat → List Char
  | 0, _ => []
  | _ + 1, [] => []
  | fuel + 1, b :: rest =>
    match utf8Step b rest with
    | some (cp, k) => Char.ofNat cp :: utf8DecodeIgnoreAux fuel (rest.drop k)
    | none => utf8DecodeIgnoreAux fuel rest

/-- `data.decode('utf-8', errors='ignore')`. -/
def utf8DecodeIgnore (bs : List Nat) : List Char :=
  utf8DecodeIgnoreAux bs.length bs

/-- `.strip('\x00')`: remove leading and trailing NUL characters. -/
def stripNul (cs : List Char) : List Char :=
  ((cs.dropWhile (·.toNat = 0)).reverse.dropWhile (·.toNat = 0)).reverse

def toLowerAscii (c : Char) : Char :=
  if 65 ≤ c.toNat ∧ c.toNat ≤ 90 then Char.ofNat (c.toNat + 32) else c

/-- The per-notification text the source computes and stores
(line 107): best-effort UTF-8 decode, then strip NULs. -/
def bestEffortText (bs : List Nat) : List Char :=
  stripNul (utf8DecodeIgnore bs)

/-- Python substring containment: `pat` occurs contiguously in the list. -/
def containsSeq (pat : List Char) : List Char → Bool
  | [] => pat.isEmpty
  | c :: rest => pat.isPrefixOf (c :: rest) || containsSeq pat rest

/-- `pat in text.lower()` for an already-lowercase ASCII pattern. -/
def containsCI (pat : String) (bs : List Nat) : Bool :=
  containsSeq pat.toList ((bestEffortText bs).map toLowerAscii)

/-- The all-ones 4-byte ready indication checked at line 113. -/
def sentinelReady : List Nat := [255, 255, 255, 255]

inductive MsgClass where
  | readySignal
  | complete
  | failed
  | unknown
deriving DecidableEq

/-- Per-message classification implemented across lines 113
(ready sentinel), 253 (`complete` scan) and 254 (`fail` scan); the
source checks `success` before `fail`, so `complete` takes precedence. -/
def classifyMessage (bs : List Nat) : MsgClass :=
  if bs = sentinelReady then .readySignal
  else if containsCI "complete" bs then .complete
  else if containsCI "fail" bs then .failed
  else .unknown

def asciiBytes (s : String) : List Nat :=
  s.toList.map Char.toNat

/-- C6 (amended): the exact 4-byte message `ff ff ff ff` classifies as
ReadySignal; every message whose best-effort decoded text contains
`complete` case-insensitively classifies as Complete; every message
whose decoded text contains `fail` but not `complete` classifies as
Failed (the source checks `complete` first, so a message containing both
is Complete, not Failed); any other non-sentinel message classifies as
Unknown, never as success. -/
theorem classify_spec :
    classifyMessage sentinelReady = .readySignal ∧
    (∀ bs, containsCI "complete" bs = true → classifyMessage bs = .complete) ∧
    (∀ bs, containsCI "complete" bs = false → containsCI "fail" bs = true →
      classifyMessage bs = .failed) ∧
    (∀ bs, bs ≠ sentinelReady → containsCI "complete" bs = false →
      containsCI "fail" bs = false → classifyMessage bs = .unknown) := by
  refine ⟨by decide, ?_, ?_, ?_⟩
  · intro bs hc
    by_cases hs : bs = sentinelReady
    · rw [hs] at hc
      exact absurd hc (by decide)
    · simp [classifyMessage, hs, hc]
  · intro bs hc hf
    by_cases hs : bs = sentinelReady
    · rw [hs] at hf
      exact absurd hf (by decide)
    · simp [classifyMessage, hs, hc, hf]
  · intro bs hs hc hf
    simp [classifyMessage, hs, hc, hf]

/-- Witness for `classify_spec`: the literal notification texts named in
the specification. -/
theorem classify_spec_witness :
    classifyMessage (asciiBytes "Transfer Complete") = .complete ∧
    classifyMessage (asciiBytes "ERROR: fail") = .failed :=
  ⟨classify_spec.2.1 (asciiBytes "Transfer Complete") (by decide),
   classify_spec.2.2.1 (asciiBytes "ERROR: fail") (by decide) (by decide)⟩

/-- Counterexample to C6 as stated: the message `complete fail` contains
`fail`, yet the source classifies it as Complete (the `complete` scan
runs first), not Failed. -/
theorem classify_cex :
    containsCI "fail" (asciiBytes "complete fail") = true ∧
    classifyMessage (asciiBytes "complete fail") = .complete ∧
    classifyMessage (asciiBytes "complete fail") ≠ .failed := by
  refine ⟨by decide, by decide, ?_⟩
  intro h
  rw [show classifyMessage (asciiBytes "complete fail") = .complete from by decide] at h
  simp at h

end OpenDott
